import Mathlib

/-!
Verification of the hrtracker temporal codec and schedule-record subsystem
(`src/main.rs`) against its natural-language specification.

Shallow embedding conventions:

* The generic versioned-encoding framework (`decent` / `decent_macros`) is an
  external collaborator, out of scope per the spec.  Its primitive integer
  codec is modelled as a typed token stream (`Tok`): each primitive value
  (`i32`, `u32`, `i64`, `Version`) occupies one `.int` / `.ver` token, and raw
  identifier bytes occupy `.byte` tokens.  Reading a token of the wrong shape
  or running off the end yields the artifact errors `.badToken` / `.eof`,
  distinct from the program's own `.invalidData` errors, which carry the exact
  message strings of the source.
* `chrono` values are modelled structurally: `NaiveDate` as its epoch-day
  count (an `Int` within chrono's representable range), `DateTime<Utc>` as
  `(days, secs, nanos)`, `TimeDelta` as `(secs, nanos)` with chrono's
  normalization invariant `0 ≤ nanos < 10^9`.
* Fallible Rust code (`io::Result`, `anyhow::Result`) becomes `Except`.
-/

namespace HrTracker

/-- Model of `decent::Version` (a triple of numbers); `LATEST = Version(0, 0, 2)`
in `src/main.rs` line 16. -/
structure Version where
  major : Nat
  minor : Nat
  patch : Nat
deriving DecidableEq

/-- Lexicographic order on versions, used by the `#[since(..)]` gating of the
external derive framework. -/
def versionLE (a b : Version) : Bool :=
  if a.major ≠ b.major then decide (a.major < b.major)
  else if a.minor ≠ b.minor then decide (a.minor < b.minor)
  else decide (a.patch ≤ b.patch)

/-- `LATEST: Version = Version(0, 0, 2)` (src/main.rs line 16). -/
def LATEST : Version := ⟨0, 0, 2⟩

/-- `Version::ZERO` of the external framework. -/
def Version.zero : Version := ⟨0, 0, 0⟩

/-- Modelled from the spec: the external framework's primitive representation
mode ("fixed-width vs. variable-length"); the tool always passes
`PrimitiveRepr::Varint`.  The codec under verification only forwards this
value, so its variants are irrelevant to every claim. -/
inductive PrimitiveRepr where
  | varint
  | fixed
deriving DecidableEq

/-- Modelled from the spec: one element of the wire stream.  The external
primitive codec is abstracted so that each encoded primitive integer is one
`.int` token, each encoded `Version` one `.ver` token, and each raw identifier
byte one `.byte` token. -/
inductive Tok where
  | byte : Nat → Tok
  | int : Int → Tok
  | ver : Version → Tok
deriving DecidableEq

/-- Model of `std::io::Error` as used by the decode paths: `.invalidData msg`
is `io::Error::new(ErrorKind::InvalidData, msg)`; `.eof` and `.badToken` are
artifacts of the token-stream abstraction (a real byte source can only fail
with end-of-file or malformed varint here). -/
inductive IoErr where
  | invalidData : String → IoErr
  | eof : IoErr
  | badToken : IoErr
deriving DecidableEq

def i32Min : Int := -2147483648
def i32Max : Int := 2147483647
def u32Max : Int := 4294967295
def i64Min : Int := -9223372036854775808
def i64Max : Int := 9223372036854775807

/-- Read one primitive `i32` token (`i32::decode` of the external framework). -/
def readI32 : List Tok → Except IoErr (Int × List Tok)
  | Tok.int v :: rest =>
    if i32Min ≤ v ∧ v ≤ i32Max then .ok (v, rest) else .error .badToken
  | [] => .error .eof
  | _ :: _ => .error .badToken

/-- Read one primitive `u32` token (`u32::decode` of the external framework). -/
def readU32 : List Tok → Except IoErr (Int × List Tok)
  | Tok.int v :: rest =>
    if 0 ≤ v ∧ v ≤ u32Max then .ok (v, rest) else .error .badToken
  | [] => .error .eof
  | _ :: _ => .error .badToken

/-- Read one primitive `i64` token (`i64::decode` of the external framework). -/
def readI64 : List Tok → Except IoErr (Int × List Tok)
  | Tok.int v :: rest =>
    if i64Min ≤ v ∧ v ≤ i64Max then .ok (v, rest) else .error .badToken
  | [] => .error .eof
  | _ :: _ => .error .badToken

/-- Read one `Version` token (`Version::decode` of the external framework). -/
def readVersionTok : List Tok → Except IoErr (Version × List Tok)
  | Tok.ver v :: rest => .ok (v, rest)
  | [] => .error .eof
  | _ :: _ => .error .badToken

/-- Read one raw byte of the stream (one byte of `Read::read_exact`). -/
def readByte : List Tok → Except IoErr (Nat × List Tok)
  | Tok.byte b :: rest => .ok (b, rest)
  | [] => .error .eof
  | _ :: _ => .error .badToken

/-- `from.read_exact(&mut bytes)` with a buffer of `n` bytes. -/
def read_exact : Nat → List Tok → Except IoErr (List Nat × List Tok)
  | 0, toks => .ok ([], toks)
  | n + 1, toks =>
    match readByte toks with
    | .error e => .error e
    | .ok (b, toks) =>
      match read_exact n toks with
      | .error e => .error e
      | .ok (bs, toks) => .ok (b :: bs, toks)

/-- Model of `chrono::TimeDelta`: seconds plus a nanosecond part; chrono
maintains `0 ≤ nanos < 1_000_000_000` (stated as a hypothesis where needed)
and clamps the whole delta to ±`i64::MAX` milliseconds. -/
structure TimeDelta where
  secs : Int
  nanos : Int
deriving DecidableEq

def TimeDelta.zero : TimeDelta := ⟨0, 0⟩

/-- `TimeDelta::hours(n)` (chrono): `n * 3600` whole seconds. -/
def TimeDelta.hours (n : Int) : TimeDelta := ⟨n * 3600, 0⟩

/-- `TimeDelta::minutes(n)` (chrono): `n * 60` whole seconds. -/
def TimeDelta.minutes (n : Int) : TimeDelta := ⟨n * 60, 0⟩

/-- `TimeDelta::seconds(n)` (chrono). -/
def TimeDelta.seconds (n : Int) : TimeDelta := ⟨n, 0⟩

/-- `TimeDelta::nanoseconds(n)` (chrono): Euclidean split into seconds and a
nonnegative nanosecond part (`div_euclid` / `rem_euclid` in chrono; Lean's `/`
and `%` on `Int` are exactly Euclidean division). -/
def TimeDelta.nanoseconds (n : Int) : TimeDelta :=
  ⟨n / 1000000000, n % 1000000000⟩

/-- chrono `TimeDelta` addition (`+=` in `parse_timedelta` and the Step
action): add components and carry the nanosecond overflow.  chrono's range
clamp (panic beyond ±`i64::MAX` ms) is unreachable at the magnitudes the
program adds and is not modelled. -/
def TimeDelta.add (a b : TimeDelta) : TimeDelta :=
  let n := a.nanos + b.nanos
  if 1000000000 ≤ n then ⟨a.secs + b.secs + 1, n - 1000000000⟩
  else ⟨a.secs + b.secs, n⟩

/-- chrono `TimeDelta::num_seconds`: whole seconds truncated toward zero. -/
def TimeDelta.num_seconds (d : TimeDelta) : Int :=
  if d.secs < 0 ∧ 0 < d.nanos then d.secs + 1 else d.secs

/-- chrono `TimeDelta::subsec_nanos`: sub-second part matching the sign of
`num_seconds`. -/
def TimeDelta.subsec_nanos (d : TimeDelta) : Int :=
  if d.secs < 0 ∧ 0 < d.nanos then d.nanos - 1000000000 else d.nanos

/-- Rust `i64::checked_mul` on in-range operands. -/
def checked_mul_i64 (a b : Int) : Option Int :=
  if i64Min ≤ a * b ∧ a * b ≤ i64Max then some (a * b) else none

/-- Rust `i64::checked_add` on in-range operands. -/
def checked_add_i64 (a b : Int) : Option Int :=
  if i64Min ≤ a + b ∧ a + b ≤ i64Max then some (a + b) else none

/-- chrono `TimeDelta::num_nanoseconds`: the checked total nanosecond count,
`None` on `i64` overflow. -/
def TimeDelta.num_nanoseconds (d : TimeDelta) : Option Int :=
  match checked_mul_i64 d.num_seconds 1000000000 with
  | none => none
  | some secs_part => checked_add_i64 secs_part d.subsec_nanos

/-- The mathematically exact total nanosecond count of a delta. -/
def TimeDelta.total_nanos (d : TimeDelta) : Int :=
  d.secs * 1000000000 + d.nanos

/-- Model of `chrono::DateTime<Utc>` decomposed exactly as the codec stores
it: epoch-day count of the calendar date, seconds since midnight, and the
nanosecond-of-second field (chrono admits values up to `1_999_999_999`, the
range above `10^9` representing a leap second). -/
structure DateTime where
  days : Int
  secs : Int
  nanos : Int
deriving DecidableEq

/-- Epoch-day count of `chrono::NaiveDate::MIN` (January 1 of year −262143,
computed with the proleptic Gregorian day formula relative to 1970-01-01). -/
def minEpochDays : Int := -96465292

/-- Epoch-day count of `chrono::NaiveDate::MAX` (December 31 of year 262142). -/
def maxEpochDays : Int := 95026236

/-- chrono's datetime well-formedness invariant, phrased on the decomposition. -/
def DateTime.Valid (dt : DateTime) : Prop :=
  minEpochDays ≤ dt.days ∧ dt.days ≤ maxEpochDays ∧
  0 ≤ dt.secs ∧ dt.secs < 86400 ∧ 0 ≤ dt.nanos ∧ dt.nanos < 2000000000

/-- `NaiveDate::from_epoch_days` (chrono): the date `days` after the epoch,
`None` outside chrono's representable range.  A date is modelled by its
epoch-day count. -/
def NaiveDate.from_epoch_days (d : Int) : Option Int :=
  if minEpochDays ≤ d ∧ d ≤ maxEpochDays then some d else none

/-- `NaiveTime::from_num_seconds_from_midnight_opt` (chrono): `None` iff
`secs ≥ 86400` or `nano ≥ 2_000_000_000` (nanosecond values in
`[10^9, 2·10^9)` are the leap-second representation and are accepted). -/
def NaiveTime.from_num_seconds_from_midnight_opt (secs nano : Int) :
    Option (Int × Int) :=
  if secs < 86400 ∧ nano < 2000000000 then some (secs, nano) else none

def DateTime.totalNanos (dt : DateTime) : Int :=
  dt.days * 86400000000000 + dt.secs * 1000000000 + dt.nanos

def DateTime.ofTotalNanos (t : Int) : DateTime :=
  ⟨t / 86400000000000,
   (t % 86400000000000) / 1000000000,
   (t % 86400000000000) % 1000000000⟩

/-- chrono `DateTime<Utc> + TimeDelta` on non-leap-second datetimes: exact
nanosecond arithmetic (chrono's special leap-second carry and its
out-of-range panic are not exercised by any claim). -/
def DateTime.add (dt : DateTime) (delta : TimeDelta) : DateTime :=
  DateTime.ofTotalNanos (dt.totalNanos + delta.total_nanos)

/-- `encode_datetime` (src/main.rs lines 18–31): emit the epoch-day count, the
seconds from midnight and the nanosecond, each through the primitive encoder;
`version` and `repr` are only forwarded to that encoder. -/
def encode_datetime (date : DateTime) (_version : Version)
    (_repr : PrimitiveRepr) : List Tok :=
  [Tok.int date.days, Tok.int date.secs, Tok.int date.nanos]

/-- `decode_datetime` (src/main.rs lines 32–55): read `i32`, `u32`, `u32`,
then validate the date and the time-of-day, failing with the source's two
`InvalidData` messages. -/
def decode_datetime (toks : List Tok) (_version : Version)
    (_repr : PrimitiveRepr) : Except IoErr (DateTime × List Tok) :=
  match readI32 toks with
  | .error e => .error e
  | .ok (epoch_day_count, toks) =>
    match readU32 toks with
    | .error e => .error e
    | .ok (second_count, toks) =>
      match readU32 toks with
      | .error e => .error e
      | .ok (nanosecond_count, toks) =>
        match NaiveDate.from_epoch_days epoch_day_count with
        | none => .error (.invalidData "invalid date while decoding date and time")
        | some date =>
          match NaiveTime.from_num_seconds_from_midnight_opt second_count
              nanosecond_count with
          | none => .error (.invalidData "invalid time while decoding date and time")
          | some time => .ok (⟨date, time.1, time.2⟩, toks)

/-- `encode_timedelta` (src/main.rs lines 57–69): take the checked total
nanosecond count, failing with `InvalidData` when it overflows `i64`, and emit
it as one signed integer.  On failure nothing is written. -/
def encode_timedelta (delta : TimeDelta) (_version : Version)
    (_repr : PrimitiveRepr) : Except IoErr (List Tok) :=
  match delta.num_nanoseconds with
  | none => .error (.invalidData "number of nanoseconds is too large")
  | some n => .ok [Tok.int n]

/-- `decode_timedelta` (src/main.rs lines 70–76): read one `i64` and interpret
it as nanoseconds. -/
def decode_timedelta (toks : List Tok) (_version : Version)
    (_repr : PrimitiveRepr) : Except IoErr (TimeDelta × List Tok) :=
  match readI64 toks with
  | .error e => .error e
  | .ok (n, toks) => .ok (TimeDelta.nanoseconds n, toks)

/-- Errors of the `anyhow`-based parsing layer, tagged by the spec's error
taxonomy: `.format` for malformed input (the `ensure!` width checks and
`ParseIntError`), `.bounds` for out-of-range fields, `.arg` for the argument
helpers of the `get` module. -/
inductive ParseError where
  | format : String → ParseError
  | bounds : String → ParseError
  | arg : String → ParseError
deriving DecidableEq

/-- `try_split_once` (src/main.rs lines 88–93) for a single-character
delimiter: split at the first occurrence, returning the remainder only when
the delimiter occurs. -/
def try_split_once : List Char → Char → List Char × Option (List Char)
  | [], _ => ([], none)
  | c :: rest, d =>
    if c = d then ([], some rest)
    else
      let (first, r) := try_split_once rest d
      (c :: first, r)

/-- Digit loop of Rust's `u8::from_str`: each character must be an ASCII
digit, the accumulator may never exceed `u8::MAX`. -/
def parse_u8_digits (acc : Nat) : List Char → Except ParseError Nat
  | [] => .ok acc
  | c :: rest =>
    if c.isDigit then
      let acc2 := acc * 10 + (c.toNat - 48)
      if acc2 ≤ 255 then parse_u8_digits acc2 rest
      else .error (.format "number too large to fit in target type")
    else .error (.format "invalid digit found in string")

/-- Rust `str::parse::<u8>` (`u8::from_str`): empty input fails, one leading
`'+'` sign is accepted (a bare sign fails), then the digit loop runs.  A `'-'`
is rejected by the digit loop as an invalid digit, as in Rust for unsigned
types. -/
def parse_u8 : List Char → Except ParseError Nat
  | [] => .error (.format "cannot parse integer from empty string")
  | c :: rest =>
    if c = '+' then
      match rest with
      | [] => .error (.format "invalid digit found in string")
      | _ :: _ => parse_u8_digits 0 rest
    else parse_u8_digits 0 (c :: rest)

/-- `parse_timedelta` (src/main.rs lines 107–142): the `HH[:MM[:SS]]` grammar.
Field widths are modelled as character counts (byte counts in Rust; the two
coincide on ASCII, and non-ASCII fields fail with a format error under either
reading).  The seconds-field width message says "minute digits", faithfully to
src/main.rs line 133. -/
def parse_timedelta (hhmmss : List Char) : Except ParseError TimeDelta :=
  match try_split_once hhmmss ':' with
  | (hh, maybe_mmss) =>
    if hh.length = 2 then
      match parse_u8 hh with
      | .error e => .error e
      | .ok hours =>
        if hours ≤ 23 then
          let delta := TimeDelta.zero.add (TimeDelta.hours (Int.ofNat hours))
          match maybe_mmss with
          | none => .ok delta
          | some mmss =>
            match try_split_once mmss ':' with
            | (mm, maybe_ss) =>
              if mm.length = 2 then
                match parse_u8 mm with
                | .error e => .error e
                | .ok minutes =>
                  if minutes ≤ 59 then
                    let delta2 := delta.add (TimeDelta.minutes (Int.ofNat minutes))
                    match maybe_ss with
                    | none => .ok delta2
                    | some ss =>
                      if ss.length = 2 then
                        match parse_u8 ss with
                        | .error e => .error e
                        | .ok seconds =>
                          if seconds ≤ 59 then
                            .ok (delta2.add (TimeDelta.seconds (Int.ofNat seconds)))
                          else
                            .error (.bounds ("`" ++ toString seconds ++
                              "` out of bounds (expected 0 to 59 seconds)"))
                      else
                        .error (.format ("expected 2 minute digits, got " ++
                          toString ss.length))
                  else
                    .error (.bounds ("`" ++ toString minutes ++
                      "` out of bounds (expected 0 to 59 minutes)"))
              else
                .error (.format ("expected 2 minute digits, got " ++
                  toString mm.length))
        else
          .error (.bounds ("`" ++ toString hours ++
            "` out of bounds (expected 0 to 23 hours)"))
    else
      .error (.format ("expected 2 hour digits, got " ++ toString hh.length))

/-- `today()` (src/main.rs lines 78–86): the current UTC date at midnight;
the current instant is passed explicitly in place of `Utc::now()`. -/
def today (now : DateTime) : DateTime := ⟨now.days, 0, 0⟩

/-- chrono `+ Days::new(1)`: one calendar day later. -/
def addOneDay (d : DateTime) : DateTime := ⟨d.days + 1, d.secs, d.nanos⟩

/-- `parse_date` (src/main.rs lines 144–154): the literal keywords `now`,
`today`, `tomorrow`/`tmrw`; anything else is a format error echoing the
token. -/
def parse_date (now : DateTime) (repr : List Char) : Except ParseError DateTime :=
  if repr = "now".data then .ok now
  else if repr = "today".data then .ok (today now)
  else if repr = "tomorrow".data ∨ repr = "tmrw".data then .ok (addOneDay (today now))
  else .error (.format ("`" ++ String.mk repr ++ "` is not a valid date"))

/-- `parse_datetime` (src/main.rs lines 156–164): split on the first `+`; the
left side is a date, an optional right side is a duration added to it. -/
def parse_datetime (now : DateTime) (repr : List Char) :
    Except ParseError DateTime :=
  match try_split_once repr '+' with
  | (date_repr, maybe_hhmmss) =>
    match parse_date now date_repr with
    | .error e => .error e
    | .ok date =>
      match maybe_hhmmss with
      | none => .ok date
      | some hhmmss =>
        match parse_timedelta hhmmss with
        | .error e => .error e
        | .ok delta => .ok (date.add delta)

/-- `<RegularSchedule as ScheduleID>::BYTES = *b"regular "`
(src/main.rs line 226). -/
def regularBytes : List Nat := [114, 101, 103, 117, 108, 97, 114, 32]

/-- `ID::<RegularSchedule>::encode` (src/main.rs lines 172–176): write the
fixed bytes verbatim, ignoring version and representation mode. -/
def ID.encode (_version : Version) (_repr : PrimitiveRepr) : List Tok :=
  regularBytes.map Tok.byte

/-- `ID::<RegularSchedule>::decode` (src/main.rs lines 177–189): read exactly
8 bytes and compare against the fixed sequence, failing with `InvalidData`
naming the record kind on mismatch. -/
def ID.decode (toks : List Tok) (_version : Version) (_repr : PrimitiveRepr) :
    Except IoErr (Unit × List Tok) :=
  match read_exact 8 toks with
  | .error e => .error e
  | .ok (bytes, toks) =>
    if bytes ≠ regularBytes then
      .error (.invalidData "incorrect identifier for regular schedule")
    else .ok ((), toks)

/-- The `#[since(0, 0, 2)]` threshold on the `id` field of `RegularSchedule`
(src/main.rs line 195). -/
def sinceIdVersion : Version := ⟨0, 0, 2⟩

/-- `RegularSchedule` (src/main.rs lines 191–203).  The `id: ID<Self>` field
is a zero-size marker carrying no runtime data and is omitted from the
structure; its wire-format effect lives in the encode/decode functions. -/
structure RegularSchedule where
  version : Version
  next : DateTime
  interval : TimeDelta
deriving DecidableEq

/-- Modelled from the spec: the decode side of the `Binary` derive on
`RegularSchedule`, which the external `decent_macros` framework generates —
fields are decoded field-by-field in declaration order, the `#[version]` field
first, and the `#[since(0, 0, 2)]` `id` field only when the decoded version
reaches that threshold, older layouts defaulting it (spec §6).  The
`#[decode_with]` attributes route the two temporal fields through
`decode_datetime` / `decode_timedelta`. -/
def RegularSchedule.decodeRec (toks : List Tok) (_ambient : Version)
    (repr : PrimitiveRepr) : Except IoErr (RegularSchedule × List Tok) :=
  match readVersionTok toks with
  | .error e => .error e
  | .ok (version, toks) =>
    match (if versionLE sinceIdVersion version then ID.decode toks version repr
           else .ok ((), toks)) with
    | .error e => .error e
    | .ok (_, toks) =>
      match decode_datetime toks version repr with
      | .error e => .error e
      | .ok (next, toks) =>
        match decode_timedelta toks version repr with
        | .error e => .error e
        | .ok (interval, toks) =>
          .ok ({ version := version, next := next, interval := interval }, toks)

/-- Modelled from the spec: the encode side of the `Binary` derive on
`RegularSchedule` — fields written in declaration order, the `id` field only
when the record's version field reaches the `#[since(0, 0, 2)]` threshold. -/
def RegularSchedule.encodeRec (r : RegularSchedule) (version : Version)
    (repr : PrimitiveRepr) : Except IoErr (List Tok) :=
  match encode_timedelta r.interval version repr with
  | .error e => .error e
  | .ok interval_toks =>
    .ok (Tok.ver r.version ::
      ((if versionLE sinceIdVersion r.version then ID.encode version repr
        else []) ++
       encode_datetime r.next version repr ++ interval_toks))

/-- `RegularSchedule::create` (src/main.rs lines 205–212). -/
def RegularSchedule.create (start : DateTime) (every : TimeDelta) :
    RegularSchedule :=
  { version := LATEST, next := start, interval := every }

/-- `RegularSchedule::open` (src/main.rs lines 213–219), with the file's
contents passed as the token stream. -/
def RegularSchedule.openRec (toks : List Tok) :
    Except IoErr (RegularSchedule × List Tok) :=
  RegularSchedule.decodeRec toks Version.zero PrimitiveRepr.varint

/-- `RegularSchedule::save` (src/main.rs lines 220–223): stamp the version
field to `LATEST`, then encode with `LATEST` and `Varint`.  The returned pair
is the mutated in-memory record and the bytes written to the (truncated)
file. -/
def RegularSchedule.save (r : RegularSchedule) :
    RegularSchedule × Except IoErr (List Tok) :=
  let r2 : RegularSchedule := { r with version := LATEST }
  (r2, r2.encodeRec LATEST PrimitiveRepr.varint)

/-- The advance step of the Step action (src/main.rs line 335):
`schedule.next += schedule.interval`, a pure in-memory mutation. -/
def RegularSchedule.advance (r : RegularSchedule) : RegularSchedule :=
  { r with next := r.next.add r.interval }

/-- `get::name` (src/main.rs lines 233–239): take the next argument, reject a
missing one and any name containing `/`.  Rust's `path.contains('/')` is
character containment, modelled on the string's character list. -/
def getName (args : List String) : Except ParseError (String × List String) :=
  match args with
  | [] => .error (.arg "an event category must be specified")
  | path :: rest =>
    if path.data.contains '/' then .error (.arg "path must not contain `/`")
    else .ok (path, rest)

/-- `get::datetime` (src/main.rs lines 240–246). -/
def getDatetime (now : DateTime) (args : List String) :
    Except ParseError (DateTime × List String) :=
  match args with
  | [] => .error (.arg "a date must be specified")
  | d :: rest =>
    match parse_datetime now d.data with
    | .error e => .error e
    | .ok dt => .ok (dt, rest)

/-- `get::interval` (src/main.rs lines 247–253). -/
def getInterval (args : List String) :
    Except ParseError (TimeDelta × List String) :=
  match args with
  | [] => .error (.arg "an interval must be specified")
  | d :: rest =>
    match parse_timedelta d.data with
    | .error e => .error e
    | .ok delta => .ok (delta, rest)

/-- `Action` (src/main.rs lines 256–265). -/
inductive Action where
  | list
  | new : String → DateTime → TimeDelta → Action
  | step : String → Action
  | next : String → Action
deriving DecidableEq

/-- `Action::get` (src/main.rs lines 266–284): dispatch on the first argument,
consuming further arguments left to right exactly as the Rust iterator does. -/
def Action.get (now : DateTime) (args : List String) :
    Except ParseError Action :=
  match args with
  | [] => .ok .list
  | action :: rest =>
    if action = "list" then .ok .list
    else if action = "new" then
      match getName rest with
      | .error e => .error e
      | .ok (name, rest) =>
        match getDatetime now rest with
        | .error e => .error e
        | .ok (start, rest) =>
          match getInterval rest with
          | .error e => .error e
          | .ok (every, _) => .ok (.new name start every)
    else if action = "step" then
      match getName rest with
      | .error e => .error e
      | .ok (name, _) => .ok (.step name)
    else if action = "next" then
      match getName rest with
      | .error e => .error e
      | .ok (name, _) => .ok (.next name)
    else .error (.arg ("unknown action `" ++ action ++ "`"))

/-- The schedule names contained in a parsed action — exactly the strings
`main` joins to the schedule directory path. -/
def Action.names : Action → List String
  | .list => []
  | .new name _ _ => [name]
  | .step name => [name]
  | .next name => [name]

/-- The 8 bytes sitting at the identifier position of a stream (used to state
what "the stream's 8-byte tag" is); `none` when that position does not hold
8 raw bytes. -/
def tagAt (toks : List Tok) : Option (List Nat) :=
  match read_exact 8 toks with
  | .ok (bs, _) => some bs
  | .error _ => none

/-- Decidable equality of `Except` results, so that concrete runs of the
embedded functions can be checked by `decide`. -/
instance instDecEqExcept {ε α : Type} [DecidableEq ε] [DecidableEq α] :
    DecidableEq (Except ε α) := fun a b =>
  match a, b with
  | .error x, .error y => decidable_of_iff (x = y) (by simp)
  | .ok x, .ok y => decidable_of_iff (x = y) (by simp)
  | .error _, .ok _ => isFalse (by simp)
  | .ok _, .error _ => isFalse (by simp)

/-- The field-shape predicate of the amended duration-grammar claim: every
present field is exactly two characters and is accepted by Rust's `u8`
parser. -/
def fieldOk (f : List Char) : Bool :=
  decide (f.length = 2) && (parse_u8 f).toOption.isSome

/-- All present fields of an `HH[:MM[:SS]]` input are well-shaped. -/
def presentFieldsWellFormed (s : List Char) : Bool :=
  match try_split_once s ':' with
  | (hh, none) => fieldOk hh
  | (hh, some mmss) =>
    fieldOk hh &&
    match try_split_once mmss ':' with
    | (mm, none) => fieldOk mm
    | (mm, some ss) => fieldOk mm && fieldOk ss

/-! ## Helper lemmas -/

theorem readI32_int (n : Int) (rest : List Tok) (h : i32Min ≤ n ∧ n ≤ i32Max) :
    readI32 (Tok.int n :: rest) = .ok (n, rest) := by
  simp only [readI32]
  rw [if_pos h]

theorem readU32_int (n : Int) (rest : List Tok) (h : 0 ≤ n ∧ n ≤ u32Max) :
    readU32 (Tok.int n :: rest) = .ok (n, rest) := by
  simp only [readU32]
  rw [if_pos h]

theorem readI64_int (n : Int) (rest : List Tok) (h : i64Min ≤ n ∧ n ≤ i64Max) :
    readI64 (Tok.int n :: rest) = .ok (n, rest) := by
  simp only [readI64]
  rw [if_pos h]

theorem read_exact_map_byte (bs : List Nat) (rest : List Tok) :
    read_exact bs.length (bs.map Tok.byte ++ rest) = .ok (bs, rest) := by
  induction bs with
  | nil => rfl
  | cons b tl ih =>
    simp only [List.length_cons, List.map_cons, List.cons_append, read_exact,
      readByte, ih]

theorem ofTotalNanos_totalNanos (t : Int) :
    (DateTime.ofTotalNanos t).totalNanos = t := by
  simp only [DateTime.ofTotalNanos, DateTime.totalNanos]
  omega

theorem delta_h (n : Int) :
    TimeDelta.zero.add (TimeDelta.hours n) = ⟨n * 3600, 0⟩ := by
  simp [TimeDelta.zero, TimeDelta.hours, TimeDelta.add]

theorem delta_m (a b : Int) :
    TimeDelta.add ⟨a, 0⟩ (TimeDelta.minutes b) = ⟨a + b * 60, 0⟩ := by
  simp [TimeDelta.minutes, TimeDelta.add]

theorem delta_s (a b : Int) :
    TimeDelta.add ⟨a, 0⟩ (TimeDelta.seconds b) = ⟨a + b, 0⟩ := by
  simp [TimeDelta.seconds, TimeDelta.add]

theorem parse_u8_digits_error_format (l : List Char) :
    ∀ acc e, parse_u8_digits acc l = .error e → ∃ m, e = .format m := by
  induction l with
  | nil =>
    intro acc e h
    exact Except.noConfusion h
  | cons c rest ih =>
    intro acc e h
    simp only [parse_u8_digits] at h
    by_cases hd : c.isDigit = true
    · rw [if_pos hd] at h
      by_cases hle : acc * 10 + (c.toNat - 48) ≤ 255
      · rw [if_pos hle] at h
        exact ih _ _ h
      · rw [if_neg hle] at h
        injection h with h
        exact ⟨_, h.symm⟩
    · rw [if_neg hd] at h
      injection h with h
      exact ⟨_, h.symm⟩

theorem parse_u8_error_format (f : List Char) (e : ParseError)
    (h : parse_u8 f = .error e) : ∃ m, e = .format m := by
  cases f with
  | nil =>
    simp only [parse_u8] at h
    injection h with h
    exact ⟨_, h.symm⟩
  | cons c rest =>
    simp only [parse_u8] at h
    by_cases hp : c = '+'
    · rw [if_pos hp] at h
      cases rest with
      | nil =>
        injection h with h
        exact ⟨_, h.symm⟩
      | cons c2 r2 =>
        exact parse_u8_digits_error_format _ _ _ h
    · rw [if_neg hp] at h
      exact parse_u8_digits_error_format _ _ _ h

/-! ## C2: datetime encode/decode round-trip -/

/-- C2: for every UTC timestamp whose decomposition is a valid triple (signed
epoch-day count, seconds-of-day in [0, 86399], nanosecond in [0, 999999999]),
decoding the bytes produced by encoding that timestamp, with the same version
and primitive representation mode, yields exactly the original timestamp. -/
theorem c2_datetime_round_trip (dt : DateTime) (rest : List Tok) (v : Version)
    (repr : PrimitiveRepr) (hv : dt.Valid) (hnano : dt.nanos ≤ 999999999) :
    decode_datetime (encode_datetime dt v repr ++ rest) v repr = .ok (dt, rest) := by
  obtain ⟨h1, h2, h3, h4, h5, h6⟩ := hv
  have hb : i32Min ≤ dt.days ∧ dt.days ≤ i32Max := by
    unfold i32Min i32Max
    unfold minEpochDays at h1
    unfold maxEpochDays at h2
    omega
  have hs : 0 ≤ dt.secs ∧ dt.secs ≤ u32Max := by
    unfold u32Max
    omega
  have hn : 0 ≤ dt.nanos ∧ dt.nanos ≤ u32Max := by
    unfold u32Max
    omega
  unfold encode_datetime decode_datetime
  simp only [List.cons_append, List.nil_append, readI32_int _ _ hb,
    readU32_int _ _ hs, readU32_int _ _ hn, NaiveDate.from_epoch_days,
    NaiveTime.from_num_seconds_from_midnight_opt]
  rw [if_pos ⟨h1, h2⟩, if_pos ⟨h4, h6⟩]

/-- Witness for C2 at the epoch instant. -/
theorem c2_datetime_round_trip_witness :
    DateTime.Valid ⟨0, 0, 0⟩ ∧
    decode_datetime (encode_datetime ⟨0, 0, 0⟩ LATEST PrimitiveRepr.varint ++ [])
        LATEST PrimitiveRepr.varint = .ok (⟨0, 0, 0⟩, []) := by
  have hv : DateTime.Valid ⟨0, 0, 0⟩ := by
    unfold DateTime.Valid minEpochDays maxEpochDays
    refine ⟨by decide, by decide, by decide, by decide, by decide, by decide⟩
  exact ⟨hv, c2_datetime_round_trip ⟨0, 0, 0⟩ [] LATEST PrimitiveRepr.varint hv
    (by decide)⟩

/-! ## C6: duration grammar examples -/

/-- C6: the duration grammar maps "07" to exactly 7 hours, "07:30" to 7h30m,
"07:30:15" to 7h30m15s; it rejects "24" with a bounds error, "7" with a
format error, and "07:60" with a bounds error. -/
theorem c6_duration_grammar_examples :
    parse_timedelta "07".data = .ok ⟨25200, 0⟩ ∧
    parse_timedelta "07:30".data = .ok ⟨27000, 0⟩ ∧
    parse_timedelta "07:30:15".data = .ok ⟨27015, 0⟩ ∧
    parse_timedelta "24".data =
      .error (.bounds "`24` out of bounds (expected 0 to 23 hours)") ∧
    parse_timedelta "7".data =
      .error (.format "expected 2 hour digits, got 1") ∧
    parse_timedelta "07:60".data =
      .error (.bounds "`60` out of bounds (expected 0 to 59 minutes)") := by
  refine ⟨?_, ?_, ?_, ?_, ?_, ?_⟩ <;> decide

/-! ## C7: save stamps the current build version -/

/-- C7: for every schedule record, whatever version it holds, save first
overwrites the record's version field with the current build version and then
encodes the record, so the persisted and in-memory version after any save
equals the current build version. -/
theorem c7_save_stamps_version (r : RegularSchedule) :
    (r.save).1 = { r with version := LATEST } ∧
    (r.save).2 = RegularSchedule.encodeRec { r with version := LATEST } LATEST
      PrimitiveRepr.varint ∧
    ∀ toks, (r.save).2 = .ok toks → toks.head? = some (Tok.ver LATEST) := by
  refine ⟨rfl, rfl, ?_⟩
  intro toks h
  simp only [RegularSchedule.save, RegularSchedule.encodeRec] at h
  cases he : encode_timedelta r.interval LATEST PrimitiveRepr.varint with
  | error e =>
    rw [he] at h
    exact Except.noConfusion h
  | ok its =>
    rw [he] at h
    injection h with h
    rw [← h]
    rfl

/-- Witness for C7: saving a record loaded with the older version 0.0.1 stamps
both the in-memory record and the head of the encoded stream to 0.0.2. -/
theorem c7_save_stamps_version_witness :
    (RegularSchedule.save ⟨⟨0, 0, 1⟩, ⟨0, 0, 0⟩, ⟨0, 0⟩⟩).1.version = LATEST ∧
    (Tok.ver LATEST :: (regularBytes.map Tok.byte ++
      [Tok.int 0, Tok.int 0, Tok.int 0, Tok.int 0])).head? =
      some (Tok.ver LATEST) := by
  refine ⟨?_, ?_⟩
  · rw [(c7_save_stamps_version ⟨⟨0, 0, 1⟩, ⟨0, 0, 0⟩, ⟨0, 0⟩⟩).1]
  · exact (c7_save_stamps_version ⟨⟨0, 0, 1⟩, ⟨0, 0, 0⟩, ⟨0, 0⟩⟩).2.2 _ (by decide)

/-! ## C8: advance frame conditions -/

/-- C8: the advance step used by the Step action sets the next trigger to
`next + interval` (exact nanosecond arithmetic) and changes no other field of
the record — interval and version are untouched (the `id` field is a
zero-size marker carrying no data).  The operation is a pure in-memory
function: it takes and returns a record and produces no output stream. -/
theorem c8_advance_frame (r : RegularSchedule) :
    (r.advance).next = r.next.add r.interval ∧
    (r.advance).next.totalNanos = r.next.totalNanos + r.interval.total_nanos ∧
    (r.advance).interval = r.interval ∧
    (r.advance).version = r.version := by
  refine ⟨rfl, ?_, rfl, rfl⟩
  show (r.next.add r.interval).totalNanos = _
  unfold DateTime.add
  rw [ofTotalNanos_totalNanos]

/-! ## C3: decode failure semantics of the timestamp codec -/

/-- C3 (amended): given the three raw integers at the head of the stream,
timestamp decode fails with an invalid-data error if and only if the day
count does not correspond to a representable calendar date, or the
(seconds-of-day, nanosecond) pair is not a valid chrono time-of-day — seconds
outside [0, 86399] or nanoseconds outside [0, 1999999999] (values in
[10^9, 2·10^9) are the accepted leap-second representation); on any such
input no timestamp value is produced. -/
theorem c3_decode_failure_iff (d s n : Int) (rest : List Tok) (v : Version)
    (repr : PrimitiveRepr) (hd : i32Min ≤ d ∧ d ≤ i32Max)
    (hs : 0 ≤ s ∧ s ≤ u32Max) (hn : 0 ≤ n ∧ n ≤ u32Max) :
    ((∃ msg, decode_datetime (Tok.int d :: Tok.int s :: Tok.int n :: rest) v repr
        = .error (.invalidData msg)) ↔
      (NaiveDate.from_epoch_days d = none ∨ 86400 ≤ s ∨ 2000000000 ≤ n)) ∧
    (∀ dt rest2,
      decode_datetime (Tok.int d :: Tok.int s :: Tok.int n :: rest) v repr
          = .ok (dt, rest2) →
      ¬(NaiveDate.from_epoch_days d = none ∨ 86400 ≤ s ∨ 2000000000 ≤ n)) := by
  have key : decode_datetime (Tok.int d :: Tok.int s :: Tok.int n :: rest) v repr =
      match NaiveDate.from_epoch_days d with
      | none => .error (.invalidData "invalid date while decoding date and time")
      | some date =>
        match NaiveTime.from_num_seconds_from_midnight_opt s n with
        | none => .error (.invalidData "invalid time while decoding date and time")
        | some time => .ok (⟨date, time.1, time.2⟩, rest) := by
    unfold decode_datetime
    simp only [readI32_int _ _ hd, readU32_int _ _ hs, readU32_int _ _ hn]
  rw [key]
  unfold NaiveTime.from_num_seconds_from_midnight_opt
  by_cases h1 : minEpochDays ≤ d ∧ d ≤ maxEpochDays
  · rw [show NaiveDate.from_epoch_days d = some d by
      unfold NaiveDate.from_epoch_days; rw [if_pos h1]]
    by_cases h2 : s < 86400 ∧ n < 2000000000
    · rw [if_pos h2]
      refine ⟨⟨fun hex => ?_, fun hor => ?_⟩, fun dt rest2 hok hor => ?_⟩
      · obtain ⟨msg, hmsg⟩ := hex
        exact Except.noConfusion hmsg
      · exfalso
        rcases hor with hx | hx | hx
        · exact Option.noConfusion hx
        · omega
        · omega
      · rcases hor with hx | hx | hx
        · exact Option.noConfusion hx
        · omega
        · omega
    · rw [if_neg h2]
      refine ⟨⟨fun _ => ?_, fun _ => ⟨_, rfl⟩⟩, fun dt rest2 hok => ?_⟩
      · right
        omega
      · exact Except.noConfusion hok
  · rw [show NaiveDate.from_epoch_days d = none by
      unfold NaiveDate.from_epoch_days; rw [if_neg h1]]
    exact ⟨⟨fun _ => Or.inl rfl, fun _ => ⟨_, rfl⟩⟩,
      fun dt rest2 hok => Except.noConfusion hok⟩

/-- C3 counterexample to the claim as frozen: a nanosecond field of
1_500_000_000 is outside the claim's [0, 999999999] window, yet decode
succeeds (chrono's leap-second representation), so decode failure is not
equivalent to the claim's condition. -/
theorem c3_leap_nanosecond_counterexample :
    decode_datetime [Tok.int 0, Tok.int 0, Tok.int 1500000000] Version.zero
        PrimitiveRepr.varint = .ok (⟨0, 0, 1500000000⟩, []) ∧
    (999999999 : Int) < 1500000000 :=
  ⟨by decide, by decide⟩

/-- Witness for C3 at a nanosecond count of 2_000_000_000, where decode does
fail with an invalid-data error. -/
theorem c3_decode_failure_iff_witness :
    ∃ msg, decode_datetime [Tok.int 0, Tok.int 0, Tok.int 2000000000]
        Version.zero PrimitiveRepr.varint = .error (.invalidData msg) :=
  ((c3_decode_failure_iff 0 0 2000000000 [] Version.zero PrimitiveRepr.varint
      (by decide) (by decide) (by decide)).1).mpr (Or.inr (Or.inr (by decide)))

/-! ## C4: duration encoding overflow behaviour -/

theorem num_nanoseconds_eq (d : TimeDelta) (h0 : 0 ≤ d.nanos)
    (h1 : d.nanos < 1000000000) :
    d.num_nanoseconds =
      if i64Min ≤ d.total_nanos ∧ d.total_nanos ≤ i64Max then some d.total_nanos
      else none := by
  unfold TimeDelta.num_nanoseconds checked_mul_i64 checked_add_i64
    TimeDelta.num_seconds TimeDelta.subsec_nanos TimeDelta.total_nanos
    i64Min i64Max
  by_cases hc : d.secs < 0 ∧ 0 < d.nanos
  · rw [if_pos hc, if_pos hc]
    by_cases hmul : (-9223372036854775808 ≤ (d.secs + 1) * 1000000000 ∧
        (d.secs + 1) * 1000000000 ≤ 9223372036854775807)
    · rw [if_pos hmul] <;>
        ((try dsimp only)
         split_ifs <;> first
           | rfl
           | (exfalso; omega)
           | (simp only [Option.some.injEq]; try omega))
    · rw [if_neg hmul] <;>
        ((try dsimp only)
         split_ifs <;> first
           | rfl
           | (exfalso; omega))
  · rw [if_neg hc, if_neg hc]
    by_cases hmul : (-9223372036854775808 ≤ d.secs * 1000000000 ∧
        d.secs * 1000000000 ≤ 9223372036854775807)
    · rw [if_pos hmul] <;>
        ((try dsimp only)
         split_ifs <;> first
           | rfl
           | (exfalso; omega)
           | (simp only [Option.some.injEq]; try omega))
    · rw [if_neg hmul] <;>
        ((try dsimp only)
         split_ifs <;> first
           | rfl
           | (exfalso; omega))

/-- C4: a duration whose exact total nanosecond count does not fit a signed
64-bit integer fails to encode with the invalid-data "too large" error and
nothing is emitted (the error branch produces no tokens); a representable
duration encodes to exactly its total nanosecond count as one signed
integer. -/
theorem c4_timedelta_encode (d : TimeDelta) (v : Version) (repr : PrimitiveRepr)
    (h0 : 0 ≤ d.nanos) (h1 : d.nanos < 1000000000) :
    ((i64Min ≤ d.total_nanos ∧ d.total_nanos ≤ i64Max) →
      encode_timedelta d v repr = .ok [Tok.int d.total_nanos]) ∧
    (¬(i64Min ≤ d.total_nanos ∧ d.total_nanos ≤ i64Max) →
      encode_timedelta d v repr =
        .error (.invalidData "number of nanoseconds is too large")) := by
  unfold encode_timedelta
  rw [num_nanoseconds_eq d h0 h1]
  constructor
  · intro h
    rw [if_pos h]
  · intro h
    rw [if_neg h]

/-- Witness for C4: the zero duration encodes to the single integer 0, and a
duration of 2^63 whole seconds (nanosecond overflow) is rejected with the
"too large" error. -/
theorem c4_timedelta_encode_witness :
    encode_timedelta ⟨0, 0⟩ Version.zero PrimitiveRepr.varint =
      .ok [Tok.int (TimeDelta.total_nanos ⟨0, 0⟩)] ∧
    encode_timedelta ⟨9223372036854775808, 0⟩ Version.zero PrimitiveRepr.varint =
      .error (.invalidData "number of nanoseconds is too large") :=
  ⟨(c4_timedelta_encode ⟨0, 0⟩ Version.zero PrimitiveRepr.varint
      (by decide) (by decide)).1 (by decide),
   (c4_timedelta_encode ⟨9223372036854775808, 0⟩ Version.zero PrimitiveRepr.varint
      (by decide) (by decide)).2 (by decide)⟩

/-! ## C1: tag validation on record decode -/

/-- C1 (amended): for every stream whose version field is at least 0.0.2 and
whose following 8 tag bytes do not equal the record kind's fixed sequence,
decoding a schedule record fails with an invalid-data error naming the
expected record kind, regardless of the bytes that follow the tag.  (For
streams storing a version below 0.0.2 the `#[since(0, 0, 2)]` identifier
field is skipped entirely, so no tag comparison happens — see the
counterexample.) -/
theorem c1_tag_mismatch_versioned (v : Version) (bs : List Nat) (rest : List Tok)
    (ambient : Version) (repr : PrimitiveRepr)
    (hv : versionLE sinceIdVersion v = true) (hlen : bs.length = 8)
    (hne : bs ≠ regularBytes) :
    RegularSchedule.decodeRec (Tok.ver v :: (bs.map Tok.byte ++ rest)) ambient repr
      = .error (.invalidData "incorrect identifier for regular schedule") := by
  unfold RegularSchedule.decodeRec
  dsimp only [readVersionTok]
  rw [if_pos hv]
  unfold ID.decode
  rw [← hlen, read_exact_map_byte bs rest]
  dsimp only
  rw [if_pos hne]

/-- C1 counterexample to the claim as frozen: a stream carrying version 0.0.1
holds no identifier bytes at the tag position (its post-version content is
not the fixed tag), yet decoding succeeds — the tag comparison is version
gated, not unconditional. -/
theorem c1_tag_skip_counterexample :
    RegularSchedule.decodeRec
        [Tok.ver ⟨0, 0, 1⟩, Tok.int 0, Tok.int 0, Tok.int 0, Tok.int 0]
        Version.zero PrimitiveRepr.varint
      = .ok (⟨⟨0, 0, 1⟩, ⟨0, 0, 0⟩, ⟨0, 0⟩⟩, []) ∧
    tagAt [Tok.int 0, Tok.int 0, Tok.int 0, Tok.int 0] ≠ some regularBytes :=
  ⟨by decide, by decide⟩

/-- Witness for C1 at version 0.0.2 and a tag of eight zero bytes. -/
theorem c1_tag_mismatch_versioned_witness :
    RegularSchedule.decodeRec
        (Tok.ver ⟨0, 0, 2⟩ :: ((List.replicate 8 0).map Tok.byte ++ []))
        Version.zero PrimitiveRepr.varint
      = .error (.invalidData "incorrect identifier for regular schedule") :=
  c1_tag_mismatch_versioned ⟨0, 0, 2⟩ (List.replicate 8 0) [] Version.zero
    PrimitiveRepr.varint (by decide) (by decide) (by decide)

/-! ## C9: schedule names containing a slash are rejected -/

/-- C9: a schedule name argument containing `/` is rejected by the argument
parser with an error — `Action::get` runs before any file is opened or
created, so every name inside a successfully parsed New, Step or Next action
(the only strings `main` joins to the schedule directory) is slash-free. -/
theorem c9_name_slash_rejected (now : DateTime) (args : List String) :
    (∀ n rest, getName args = .ok (n, rest) → n.data.contains '/' = false) ∧
    (∀ a, Action.get now args = .ok a →
      ∀ n ∈ a.names, n.data.contains '/' = false) := by
  have hname : ∀ (l : List String) n rest, getName l = .ok (n, rest) →
      n.data.contains '/' = false := by
    intro l n rest h
    cases l with
    | nil => exact Except.noConfusion h
    | cons p r =>
      simp only [getName] at h
      by_cases hc : p.data.contains '/' = true
      · rw [if_pos hc] at h
        exact Except.noConfusion h
      · rw [if_neg hc] at h
        injection h with h
        injection h with h2 h3
        rw [← h2]
        simp only [Bool.not_eq_true] at hc
        exact hc
  refine ⟨hname args, ?_⟩
  intro a h n hmem
  cases args with
  | nil =>
    simp only [Action.get] at h
    injection h with h
    rw [← h] at hmem
    exact absurd hmem (by simp [Action.names])
  | cons action rest =>
    simp only [Action.get] at h
    split_ifs at h
    · injection h with h
      rw [← h] at hmem
      exact absurd hmem (by simp [Action.names])
    · cases hg : getName rest with
      | error e =>
        rw [hg] at h
        exact Except.noConfusion h
      | ok p =>
        obtain ⟨pn, pr⟩ := p
        rw [hg] at h
        dsimp only at h
        cases hd : getDatetime now pr with
        | error e =>
          rw [hd] at h
          exact Except.noConfusion h
        | ok q =>
          obtain ⟨qd, qr⟩ := q
          rw [hd] at h
          dsimp only at h
          cases hi : getInterval qr with
          | error e =>
            rw [hi] at h
            exact Except.noConfusion h
          | ok w =>
            obtain ⟨wd, wr⟩ := w
            rw [hi] at h
            dsimp only at h
            injection h with h
            rw [← h] at hmem
            simp only [Action.names, List.mem_singleton] at hmem
            rw [hmem]
            exact hname rest pn pr hg
    · cases hg : getName rest with
      | error e =>
        rw [hg] at h
        exact Except.noConfusion h
      | ok p =>
        obtain ⟨pn, pr⟩ := p
        rw [hg] at h
        dsimp only at h
        injection h with h
        rw [← h] at hmem
        simp only [Action.names, List.mem_singleton] at hmem
        rw [hmem]
        exact hname rest pn pr hg
    · cases hg : getName rest with
      | error e =>
        rw [hg] at h
        exact Except.noConfusion h
      | ok p =>
        obtain ⟨pn, pr⟩ := p
        rw [hg] at h
        dsimp only at h
        injection h with h
        rw [← h] at hmem
        simp only [Action.names, List.mem_singleton] at hmem
        rw [hmem]
        exact hname rest pn pr hg

/-- Witness for C9: the name "gym" of a parsed Step action contains no
slash. -/
theorem c9_name_slash_rejected_witness :
    ("gym").data.contains '/' = false :=
  (c9_name_slash_rejected ⟨0, 0, 0⟩ ["step", "gym"]).2 (.step "gym") (by decide)
    "gym" (by simp [Action.names])

/-! ## C10: range of durations produced by the grammar -/

/-- C10: every duration the grammar accepts is a whole number of seconds
between 0 and 86399 (23h59m59s) inclusive — never negative and never 24
hours or more. -/
theorem c10_parse_timedelta_range (s : List Char) (d : TimeDelta)
    (h : parse_timedelta s = .ok d) :
    d.nanos = 0 ∧ 0 ≤ d.secs ∧ d.secs ≤ 86399 := by
  unfold parse_timedelta at h
  rcases hsp : try_split_once s ':' with ⟨hh, maybe⟩
  rw [hsp] at h
  dsimp only at h
  by_cases hlen : hh.length = 2
  case neg =>
    rw [if_neg hlen] at h
    exact Except.noConfusion h
  rw [if_pos hlen] at h
  cases hu : parse_u8 hh with
  | error e =>
    rw [hu] at h
    exact Except.noConfusion h
  | ok hours =>
    rw [hu] at h
    dsimp only at h
    by_cases hb : hours ≤ 23
    case neg =>
      rw [if_neg hb] at h
      exact Except.noConfusion h
    rw [if_pos hb, delta_h] at h
    cases maybe with
    | none =>
      dsimp only at h
      injection h with h
      rw [← h]
      refine ⟨rfl, ?_, ?_⟩ <;> (dsimp only; simp only [Int.ofNat_eq_coe]; omega)
    | some mmss =>
      dsimp only at h
      rcases hsp2 : try_split_once mmss ':' with ⟨mm, maybe_ss⟩
      rw [hsp2] at h
      dsimp only at h
      by_cases hlen2 : mm.length = 2
      case neg =>
        rw [if_neg hlen2] at h
        exact Except.noConfusion h
      rw [if_pos hlen2] at h
      cases hu2 : parse_u8 mm with
      | error e =>
        rw [hu2] at h
        exact Except.noConfusion h
      | ok minutes =>
        rw [hu2] at h
        dsimp only at h
        by_cases hb2 : minutes ≤ 59
        case neg =>
          rw [if_neg hb2] at h
          exact Except.noConfusion h
        rw [if_pos hb2, delta_m] at h
        cases maybe_ss with
        | none =>
          dsimp only at h
          injection h with h
          rw [← h]
          refine ⟨rfl, ?_, ?_⟩ <;> (dsimp only; simp only [Int.ofNat_eq_coe]; omega)
        | some ss =>
          dsimp only at h
          by_cases hlen3 : ss.length = 2
          case neg =>
            rw [if_neg hlen3] at h
            exact Except.noConfusion h
          rw [if_pos hlen3] at h
          cases hu3 : parse_u8 ss with
          | error e =>
            rw [hu3] at h
            exact Except.noConfusion h
          | ok seconds =>
            rw [hu3] at h
            dsimp only at h
            by_cases hb3 : seconds ≤ 59
            case neg =>
              rw [if_neg hb3] at h
              exact Except.noConfusion h
            rw [if_pos hb3, delta_s] at h
            injection h with h
            rw [← h]
            refine ⟨rfl, ?_, ?_⟩ <;> (dsimp only; simp only [Int.ofNat_eq_coe]; omega)

/-- Witness for C10 at the maximal input "23:59:59". -/
theorem c10_parse_timedelta_range_witness :
    parse_timedelta "23:59:59".data = .ok ⟨86399, 0⟩ ∧
    ((⟨86399, 0⟩ : TimeDelta).nanos = 0 ∧ 0 ≤ (⟨86399, 0⟩ : TimeDelta).secs ∧
      (⟨86399, 0⟩ : TimeDelta).secs ≤ 86399) :=
  ⟨by decide, c10_parse_timedelta_range "23:59:59".data ⟨86399, 0⟩ (by decide)⟩

/-! ## C5: field shape requirements of the duration grammar -/

/-- C5 (amended): each present field of the `HH[:MM[:SS]]` grammar must be
exactly two characters that Rust's unsigned-integer parser accepts (two
decimal digits, or a leading '+' followed by one digit); an input violating
this for some present field never yields a duration, and when the violating
field is the hours field the rejection is a format error (a violation in a
later field can be masked by a bounds error on an earlier field). -/
theorem c5_field_shape (s : List Char) :
    (∀ d, parse_timedelta s = .ok d → presentFieldsWellFormed s = true) ∧
    (presentFieldsWellFormed s = false → ∀ d, parse_timedelta s ≠ .ok d) ∧
    (fieldOk (try_split_once s ':').1 = false →
      ∃ msg, parse_timedelta s = .error (.format msg)) := by
  have hmain : ∀ d, parse_timedelta s = .ok d →
      presentFieldsWellFormed s = true := by
    intro d h
    unfold parse_timedelta at h
    unfold presentFieldsWellFormed
    rcases hsp : try_split_once s ':' with ⟨hh, maybe⟩
    rw [hsp] at h
    dsimp only at h
    by_cases hlen : hh.length = 2
    case neg =>
      rw [if_neg hlen] at h
      exact Except.noConfusion h
    rw [if_pos hlen] at h
    cases hu : parse_u8 hh with
    | error e =>
      rw [hu] at h
      exact Except.noConfusion h
    | ok hours =>
      rw [hu] at h
      dsimp only at h
      have hok1 : fieldOk hh = true := by
        unfold fieldOk
        rw [hu]
        simp [hlen, Except.toOption]
      by_cases hb : hours ≤ 23
      case neg =>
        rw [if_neg hb] at h
        exact Except.noConfusion h
      rw [if_pos hb] at h
      cases maybe with
      | none =>
        dsimp only
        exact hok1
      | some mmss =>
        try dsimp only at h
        try dsimp only
        rcases hsp2 : try_split_once mmss ':' with ⟨mm, maybe_ss⟩
        rw [hsp2] at h
        try dsimp only at h
        try dsimp only
        by_cases hlen2 : mm.length = 2
        case neg =>
          rw [if_neg hlen2] at h
          exact Except.noConfusion h
        rw [if_pos hlen2] at h
        cases hu2 : parse_u8 mm with
        | error e =>
          rw [hu2] at h
          exact Except.noConfusion h
        | ok minutes =>
          rw [hu2] at h
          dsimp only at h
          have hok2 : fieldOk mm = true := by
            unfold fieldOk
            rw [hu2]
            simp [hlen2, Except.toOption]
          by_cases hb2 : minutes ≤ 59
          case neg =>
            rw [if_neg hb2] at h
            exact Except.noConfusion h
          rw [if_pos hb2] at h
          cases maybe_ss with
          | none =>
            dsimp only
            rw [hok1, hok2]
            rfl
          | some ss =>
            dsimp only at h
            dsimp only
            by_cases hlen3 : ss.length = 2
            case neg =>
              rw [if_neg hlen3] at h
              exact Except.noConfusion h
            rw [if_pos hlen3] at h
            cases hu3 : parse_u8 ss with
            | error e =>
              rw [hu3] at h
              exact Except.noConfusion h
            | ok seconds =>
              rw [hu3] at h
              have hok3 : fieldOk ss = true := by
                unfold fieldOk
                rw [hu3]
                simp [hlen3, Except.toOption]
              rw [hok1, hok2, hok3]
              rfl
  refine ⟨hmain, fun hwf d hok => ?_, ?_⟩
  · have htrue := hmain d hok
    rw [htrue] at hwf
    exact Bool.noConfusion hwf
  · intro hbad
    rcases hsp : try_split_once s ':' with ⟨hh, maybe⟩
    rw [hsp] at hbad
    dsimp only at hbad
    unfold parse_timedelta
    rw [hsp]
    dsimp only
    unfold fieldOk at hbad
    by_cases hlen : hh.length = 2
    · rw [if_pos hlen]
      cases hu : parse_u8 hh with
      | error e =>
        obtain ⟨m, hm⟩ := parse_u8_error_format hh e hu
        refine ⟨m, ?_⟩
        subst hm
        rfl
      | ok k =>
        rw [hu] at hbad
        simp [hlen, Except.toOption] at hbad
    · rw [if_neg hlen]
      exact ⟨_, rfl⟩

/-- C5 counterexample to the claim as frozen: the hours field "+9" is two
characters but not two digits, yet the grammar accepts it as 9 hours
(Rust's `u8` parser admits a leading '+'), so such an input is not rejected. -/
theorem c5_plus_sign_counterexample :
    parse_timedelta "+9".data = .ok ⟨32400, 0⟩ ∧
    ("+9".data.all Char.isDigit) = false :=
  ⟨by decide, by decide⟩

/-- Witness for C5 at the one-digit input "7". -/
theorem c5_field_shape_witness :
    (∀ d, parse_timedelta "7".data ≠ .ok d) ∧
    (∃ msg, parse_timedelta "7".data = .error (.format msg)) :=
  ⟨(c5_field_shape "7".data).2.1 (by decide),
   (c5_field_shape "7".data).2.2 (by decide)⟩

end HrTracker
